import Mathlib

/-!
Shallow embedding of the catalog/cart logic of `src/App.js` of the
mini-ecommerce storefront. Prices are modelled as rationals; ids, stock
levels and quantities as integers (the JS code only ever uses them
integrally); strings as Lean strings. Each definition mirrors one JS
function or expression, named after it.
-/

namespace MiniShop

/-- A catalog product as fetched from the API (the fields the logic reads). -/
structure Product where
  id : Int
  title : String
  category : String
  price : ℚ
  stock : Int
deriving DecidableEq

/-- A cart line: the spread `{...product, quantity}` — a captured copy of the
product's fields plus a quantity. -/
structure CartLine where
  id : Int
  title : String
  category : String
  price : ℚ
  stock : Int
  quantity : Int
deriving DecidableEq

/-- The spread `{...product, quantity: 1}` built by `addToCart` for a product
not yet in the cart. -/
def newLine (p : Product) : CartLine :=
  { id := p.id, title := p.title, category := p.category, price := p.price,
    stock := p.stock, quantity := 1 }

/-- `addToCart` (App.js lines 144-159): find an existing line by id; if found
and its quantity is below `product.stock`, increment that line; if found at
the ceiling, return the cart unchanged; otherwise append a fresh line with
quantity 1. -/
def addToCart (cart : List CartLine) (product : Product) : List CartLine :=
  match cart.find? (fun item => item.id == product.id) with
  | some existing =>
    if existing.quantity < product.stock then
      cart.map (fun item =>
        if item.id == product.id then { item with quantity := item.quantity + 1 }
        else item)
    else cart
  | none => cart ++ [newLine product]

/-- `removeFromCart` (App.js lines 161-163): keep the lines whose id differs. -/
def removeFromCart (cart : List CartLine) (id : Int) : List CartLine :=
  cart.filter (fun item => item.id != id)

/-- `updateQuantity` (App.js lines 165-170): if `newQty < 1 || newQty > maxStock`
return the cart unchanged, else set the quantity of every line with this id.
The ceiling checked is the caller-supplied `maxStock` argument. -/
def updateQuantity (cart : List CartLine) (id newQty maxStock : Int) : List CartLine :=
  if newQty < 1 ∨ newQty > maxStock then cart
  else cart.map (fun item =>
    if item.id == id then { item with quantity := newQty } else item)

/-- `totalItems` (App.js line 179): `cart.reduce((sum, item) => sum + item.quantity, 0)`. -/
def totalItems (cart : List CartLine) : Int :=
  cart.foldl (fun sum item => sum + item.quantity) 0

/-- `totalPrice` (App.js line 180):
`cart.reduce((sum, item) => sum + item.price * item.quantity, 0)`. -/
def totalPrice (cart : List CartLine) : ℚ :=
  cart.foldl (fun sum item => sum + item.price * (item.quantity : ℚ)) 0

/-- The three filter inputs consumed by `filteredProducts`. The sort order is
the raw string of the `<select>`: `""` (none), `"low"` or `"high"`. -/
structure FilterState where
  search : String
  category : String
  sortOrder : String

/-- JS `s.toLowerCase()`, viewed as its character sequence. -/
def jsToLower (s : String) : List Char :=
  s.data.map Char.toLower

/-- JS `hay.includes(needle)`: `needle` occurs as a contiguous substring of
`hay`. -/
def jsIncludes (hay needle : List Char) : Bool :=
  decide (needle <:+: hay)

/-- The first `.filter` predicate of `filteredProducts`:
`p.title.toLowerCase().includes(debouncedSearch.toLowerCase())`. -/
def titleMatches (search : String) (p : Product) : Bool :=
  jsIncludes (jsToLower p.title) (jsToLower search)

/-- The second `.filter` predicate of `filteredProducts`:
`selectedCategory === "all" || p.category === selectedCategory`. -/
def categoryMatches (cat : String) (p : Product) : Bool :=
  cat == "all" || p.category == cat

/-- The two chained `.filter` calls of `filteredProducts`, before sorting. -/
def filterOnly (products : List Product) (F : FilterState) : List Product :=
  (products.filter (titleMatches F.search)).filter (categoryMatches F.category)

/-- The `.sort` comparator of `filteredProducts`: `a.price - b.price` for
`"low"`, `b.price - a.price` for `"high"`, and 0 otherwise. -/
def sortCmp (sortOrder : String) (a b : Product) : ℚ :=
  if sortOrder == "low" then a.price - b.price
  else if sortOrder == "high" then b.price - a.price
  else 0

/-- `filteredProducts` (App.js lines 126-139): filter by title substring, then
by category, then sort with the price comparator. `Array.prototype.sort` is
required (ES2019) to be a stable sort with respect to the total preorder
"comparator result is nonpositive", which `List.mergeSort` implements. -/
def filteredProducts (products : List Product) (F : FilterState) : List Product :=
  (filterOnly products F).mergeSort (fun a b => decide (sortCmp F.sortOrder a b ≤ 0))

/-- Iteration order of JS `new Set(xs)`: the distinct elements of `xs`, each at
its first occurrence, in first-seen order. -/
def setDedup : List String → List String
  | [] => []
  | c :: rest => c :: setDedup (rest.filter (fun d => d != c))
termination_by l => l.length
decreasing_by
  simp only [List.length_cons]
  exact Nat.lt_succ_of_le (List.length_filter_le _ _)

/-- `categories` (App.js lines 120-122):
`["all", ...new Set(products.map((p) => p.category))]`. -/
def categories (products : List Product) : List String :=
  "all" :: setDedup (products.map (fun p => p.category))

/-- The cart `useState` initializer (App.js lines 91-94):
`const saved = localStorage.getItem("cart"); return saved ? JSON.parse(saved) : [];`
`localStorage.getItem` yields `none` for an absent key; `JSON.parse` is the
abstract fallible parser `parse` (on malformed input it throws, modelled as
`Except.error`, and the initializer has no handler around it); the empty
string is JS-falsy, hence it also yields the empty cart. -/
def initCart (parse : String → Except String (List CartLine)) (saved : Option String) :
    Except String (List CartLine) :=
  match saved with
  | none => Except.ok []
  | some s => if s = "" then Except.ok [] else parse s

/-- The Cart invariant of the spec: unique product ids, and every line's
quantity within `[1, stock-at-add-time]`. -/
def cartInvariant (cart : List CartLine) : Prop :=
  (cart.map (fun l => l.id)).Nodup ∧ ∀ l ∈ cart, 1 ≤ l.quantity ∧ l.quantity ≤ l.stock

instance (cart : List CartLine) : Decidable (cartInvariant cart) := by
  unfold cartInvariant
  infer_instance

example :
    addToCart [] (⟨1, "Red Shirt", "clothing", 10, 2⟩ : Product) =
      [(⟨1, "Red Shirt", "clothing", 10, 2, 1⟩ : CartLine)] := by
  decide

example :
    titleMatches "red" (⟨1, "Red Shirt", "clothing", 10, 2⟩ : Product) = true := by
  decide

lemma foldl_add_int (cart : List CartLine) (a : Int) :
    cart.foldl (fun sum item => sum + item.quantity) a
      = a + (cart.map (fun l => l.quantity)).sum := by
  induction cart generalizing a with
  | nil => simp
  | cons x xs ih => simp [List.foldl_cons, ih, add_assoc]

lemma foldl_add_rat (cart : List CartLine) (a : ℚ) :
    cart.foldl (fun sum item => sum + item.price * (item.quantity : ℚ)) a
      = a + (cart.map (fun l => l.price * (l.quantity : ℚ))).sum := by
  induction cart generalizing a with
  | nil => simp
  | cons x xs ih => simp [List.foldl_cons, ih, add_assoc]

/-- Claim C5: `totals(K).itemCount` is the sum of the line quantities of `K`,
`totals(K).totalPrice` is the sum of price × quantity over the lines of `K`
with no rounding in the aggregated value, and both totals of the empty cart
are 0. -/
theorem totals_spec (cart : List CartLine) :
    totalItems cart = (cart.map (fun l => l.quantity)).sum ∧
    totalPrice cart = (cart.map (fun l => l.price * (l.quantity : ℚ))).sum ∧
    totalItems [] = 0 ∧ totalPrice [] = 0 := by
  refine ⟨?_, ?_, rfl, rfl⟩
  · simpa using foldl_add_int cart 0
  · simpa using foldl_add_rat cart 0

/-- Claim C7: `removeFromCart cart id` is a sublist of `cart` (so the
surviving lines keep their relative order), contains no line with the given
id, keeps every line whose id differs, and is `cart` itself when no line has
the given id. -/
theorem removeFromCart_spec (cart : List CartLine) (id : Int) :
    (removeFromCart cart id).Sublist cart ∧
    (∀ l ∈ removeFromCart cart id, l.id ≠ id) ∧
    (∀ l ∈ cart, l.id ≠ id → l ∈ removeFromCart cart id) ∧
    ((∀ l ∈ cart, l.id ≠ id) → removeFromCart cart id = cart) := by
  simp only [removeFromCart]
  refine ⟨List.filter_sublist cart, ?_, ?_, ?_⟩
  · intro l hl
    simpa using (List.mem_filter.mp hl).2
  · intro l hl hne
    exact List.mem_filter.mpr ⟨hl, by simpa using hne⟩
  · intro h
    exact List.filter_eq_self.mpr (fun a ha => by simpa using h a ha)

/-- Witness for C7 at a concrete cart: removing id 1 keeps the line with
id 2. -/
theorem removeFromCart_spec_w :
    (⟨2, "B", "c", 5, 3, 1⟩ : CartLine) ∈
      removeFromCart [⟨1, "A", "c", 10, 2, 2⟩, ⟨2, "B", "c", 5, 3, 1⟩] 1 :=
  (removeFromCart_spec [⟨1, "A", "c", 10, 2, 2⟩, ⟨2, "B", "c", 5, 3, 1⟩] 1).2.2.1
    ⟨2, "B", "c", 5, 3, 1⟩ (by decide) (by decide)

/-- Claim C10: `updateQuantity` validates against the caller-supplied
`maxStock`, not the stored line's captured stock: a line can be driven past
its own stock ceiling whenever `maxStock` exceeds it. -/
theorem updateQuantity_ignores_captured_stock (cart : List CartLine)
    (id q maxStock : Int) (line : CartLine) (hmem : line ∈ cart)
    (hid : line.id = id) (hs : 0 ≤ line.stock) (hq1 : line.stock < q)
    (hq2 : q ≤ maxStock) :
    ∃ l ∈ updateQuantity cart id q maxStock,
      l.id = id ∧ l.quantity = q ∧ l.stock < l.quantity := by
  have h1 : ¬ (q < 1 ∨ q > maxStock) := by omega
  unfold updateQuantity
  rw [if_neg h1]
  refine ⟨{ line with quantity := q }, ?_, hid, rfl, by simpa using hq1⟩
  exact List.mem_map.mpr ⟨line, hmem, by simp [hid]⟩

/-- Witness for C10: a line with captured stock 2 is driven to quantity 3 by
`maxStock = 5`. -/
theorem updateQuantity_ignores_captured_stock_w :
    ∃ l ∈ updateQuantity [(⟨1, "A", "c", 10, 2, 2⟩ : CartLine)] 1 3 5,
      l.id = 1 ∧ l.quantity = 3 ∧ l.stock < l.quantity :=
  updateQuantity_ignores_captured_stock _ 1 3 5 ⟨1, "A", "c", 10, 2, 2⟩
    (by decide) rfl (by decide) (by decide) (by decide)

/-- Counterexample to C4 as stated: the line's captured stock ceiling is 2 and
the requested quantity 3 lies outside `[1, 2]`, yet with `maxStock = 5` the
call is not a no-op — the cart changes. -/
theorem updateQuantity_noop_cex :
    ((3 : Int) < 1 ∨ (3 : Int) > 2) ∧
    updateQuantity [(⟨1, "A", "c", 10, 2, 2⟩ : CartLine)] 1 3 5 ≠
      [(⟨1, "A", "c", 10, 2, 2⟩ : CartLine)] := by
  decide

/-- Claim C4 (amended): `updateQuantity` is a no-op whenever the requested
quantity lies outside `[1, maxStock]` for the caller-supplied `maxStock`, and
whenever no line of the cart has the given id; in particular, when `maxStock`
equals the matching line's captured stock — as at every call site of the app —
it is a no-op whenever the quantity is outside `[1, stock ceiling]`. -/
theorem updateQuantity_noop (cart : List CartLine) (id q maxStock : Int) :
    ((q < 1 ∨ q > maxStock) → updateQuantity cart id q maxStock = cart) ∧
    ((∀ l ∈ cart, l.id ≠ id) → updateQuantity cart id q maxStock = cart) ∧
    (∀ line ∈ cart, line.id = id → maxStock = line.stock →
      (q < 1 ∨ q > line.stock) → updateQuantity cart id q maxStock = cart) := by
  have h1 : (q < 1 ∨ q > maxStock) → updateQuantity cart id q maxStock = cart := by
    intro h
    unfold updateQuantity
    rw [if_pos h]
  refine ⟨h1, ?_, ?_⟩
  · intro h
    by_cases hc : q < 1 ∨ q > maxStock
    · exact h1 hc
    · unfold updateQuantity
      rw [if_neg hc]
      have hmap : ∀ a ∈ cart,
          (fun item => if item.id == id then { item with quantity := q } else item) a
            = (fun a => a) a := by
        intro a ha
        have hbeq : (a.id == id) = false := by simpa using h a ha
        simp [hbeq]
      rw [List.map_congr_left hmap, List.map_id']
  · intro line hmem hid hms hq
    exact h1 (by omega)

/-- Witness for C4: a requested quantity of 0 is rejected and the cart is
returned unchanged. -/
theorem updateQuantity_noop_w :
    updateQuantity [(⟨1, "A", "c", 10, 2, 2⟩ : CartLine)] 1 0 2 =
      [(⟨1, "A", "c", 10, 2, 2⟩ : CartLine)] :=
  (updateQuantity_noop _ 1 0 2).1 (Or.inl (by decide))

/-- Claim C6: at startup a missing key does yield the empty cart, but a
malformed stored value does not — `JSON.parse` has no surrounding handler in
the initializer, so its failure propagates (the render crashes) instead of
producing the empty cart. -/
theorem initCart_malformed (parse : String → Except String (List CartLine))
    (h : parse "not valid json" = Except.error "SyntaxError") :
    initCart parse none = Except.ok [] ∧
    initCart parse (some "not valid json") = Except.error "SyntaxError" := by
  refine ⟨rfl, ?_⟩
  show (if ("not valid json" : String) = "" then (Except.ok [] : Except String (List CartLine))
        else parse "not valid json") = Except.error "SyntaxError"
  rw [if_neg (by decide)]
  exact h

/-- Witness for C6 with a concrete parser that fails on the malformed
value. -/
theorem initCart_malformed_w :
    initCart (fun _ => Except.error "SyntaxError") none = Except.ok [] ∧
    initCart (fun _ => Except.error "SyntaxError") (some "not valid json") =
      Except.error "SyntaxError" :=
  initCart_malformed (fun _ => Except.error "SyntaxError") rfl

lemma addToCart_eq_of_none (cart : List CartLine) (p : Product)
    (h : cart.find? (fun item => item.id == p.id) = none) :
    addToCart cart p = cart ++ [newLine p] := by
  unfold addToCart
  rw [h]

lemma addToCart_eq_of_some (cart : List CartLine) (p : Product) (existing : CartLine)
    (h : cart.find? (fun item => item.id == p.id) = some existing) :
    addToCart cart p =
      if existing.quantity < p.stock then
        cart.map (fun item =>
          if item.id == p.id then { item with quantity := item.quantity + 1 }
          else item)
      else cart := by
  unfold addToCart
  rw [h]

/-- Mapping a function that keeps the `id` field leaves the id list of a cart
unchanged. -/
lemma map_ids_of_preserving (cart : List CartLine) (f : CartLine → CartLine)
    (hf : ∀ l, (f l).id = l.id) :
    (cart.map f).map (fun l => l.id) = cart.map (fun l => l.id) := by
  rw [List.map_map]
  exact List.map_congr_left (fun a _ => hf a)

/-- Counterexample to C3 as stated: a cart line with captured stock 5 and
quantity 3 (strictly below its captured ceiling), but adding a product with
the same id and stock 2 leaves the cart unchanged instead of incrementing —
the code compares against the incoming product's stock. -/
theorem addToCart_spec_cex :
    (3 : Int) < 5 ∧
    addToCart [(⟨1, "A", "c", 10, 5, 3⟩ : CartLine)] (⟨1, "A", "c", 10, 2⟩ : Product) =
      [(⟨1, "A", "c", 10, 5, 3⟩ : CartLine)] := by
  decide

/-- Claim C3 (amended): if no line of the cart carries `p.id`, `addToCart`
appends a fresh line with quantity 1 capturing the product's fields; if the
(unique) line with `p.id` has quantity strictly below `p.stock` — the stock
of the product passed to the call, which equals the captured ceiling whenever
the same catalog product is passed, as in the app — that line's quantity is
incremented by 1 in place; otherwise the cart is returned unchanged. -/
theorem addToCart_spec (cart : List CartLine) (p : Product) :
    ((∀ l ∈ cart, l.id ≠ p.id) → addToCart cart p = cart ++ [newLine p]) ∧
    (∀ before line after,
      cart = before ++ line :: after → line.id = p.id →
      (∀ l ∈ before, l.id ≠ p.id) → (∀ l ∈ after, l.id ≠ p.id) →
      (line.quantity < p.stock →
        addToCart cart p =
          before ++ { line with quantity := line.quantity + 1 } :: after) ∧
      (p.stock ≤ line.quantity → addToCart cart p = cart)) := by
  constructor
  · intro h
    exact addToCart_eq_of_none cart p
      (List.find?_eq_none.mpr (fun x hx => by simpa using h x hx))
  · intro before line after hcart hid hbefore hafter
    have hfb : before.find? (fun item => item.id == p.id) = none :=
      List.find?_eq_none.mpr (fun x hx => by simpa using hbefore x hx)
    have hfind : cart.find? (fun item => item.id == p.id) = some line := by
      rw [hcart, List.find?_append, hfb,
        List.find?_cons_of_pos _ (by simpa using hid)]
      rfl
    rw [addToCart_eq_of_some cart p line hfind]
    constructor
    · intro hlt
      rw [if_pos hlt, hcart, List.map_append, List.map_cons]
      have h1 : ∀ a ∈ before,
          (fun item => if item.id == p.id then { item with quantity := item.quantity + 1 }
            else item) a = (fun a => a) a := by
        intro a ha
        have hb : (a.id == p.id) = false := by simpa using hbefore a ha
        simp [hb]
      have h2 : ∀ a ∈ after,
          (fun item => if item.id == p.id then { item with quantity := item.quantity + 1 }
            else item) a = (fun a => a) a := by
        intro a ha
        have hb : (a.id == p.id) = false := by simpa using hafter a ha
        simp [hb]
      rw [List.map_congr_left h1, List.map_id', List.map_congr_left h2, List.map_id']
      have hl : (if line.id == p.id then { line with quantity := line.quantity + 1 }
          else line) = { line with quantity := line.quantity + 1 } := by
        simp [hid]
      rw [hl]
    · intro hge
      rw [if_neg (by omega)]

/-- Witness for C3: adding a product to the empty cart appends a fresh
quantity-1 line. -/
theorem addToCart_spec_w :
    addToCart [] (⟨1, "A", "c", 10, 2⟩ : Product) =
      [] ++ [newLine ⟨1, "A", "c", 10, 2⟩] :=
  (addToCart_spec [] ⟨1, "A", "c", 10, 2⟩).1 (by simp)

/-- Counterexample to C1 as stated: three separate violations. Adding a
product with stock 0 to the empty cart creates a line with quantity 1 and
ceiling 0; adding a product whose stock exceeds a line's captured stock grows
the line past its captured ceiling; updateQuantity with a large `maxStock`
pushes a line past its captured ceiling. -/
theorem cartInvariant_preserved_cex :
    cartInvariant [] ∧
    ¬ cartInvariant (addToCart [] (⟨7, "Gadget", "tech", 5, 0⟩ : Product)) ∧
    cartInvariant [(⟨1, "A", "c", 10, 3, 3⟩ : CartLine)] ∧
    ¬ cartInvariant
        (addToCart [(⟨1, "A", "c", 10, 3, 3⟩ : CartLine)] (⟨1, "A", "c", 10, 9⟩ : Product)) ∧
    cartInvariant [(⟨1, "A", "c", 10, 2, 2⟩ : CartLine)] ∧
    ¬ cartInvariant (updateQuantity [(⟨1, "A", "c", 10, 2, 2⟩ : CartLine)] 1 3 5) := by
  decide

/-- Claim C1 (amended): on a cart satisfying the invariant, removeFromCart
always preserves it; updateQuantity preserves it whenever the supplied
`maxStock` is at most the captured stock of any line carrying the target id;
addToCart preserves it whenever the product's stock is at least 1 and at most
the captured stock of any line already carrying its id (both side conditions
hold at every call site of the app, which passes the catalog product itself
and the line's own stock). -/
theorem cartInvariant_preserved (cart : List CartLine) (p : Product)
    (id q maxStock : Int) (hinv : cartInvariant cart) :
    cartInvariant (removeFromCart cart id) ∧
    ((∀ l ∈ cart, l.id = id → maxStock ≤ l.stock) →
      cartInvariant (updateQuantity cart id q maxStock)) ∧
    (1 ≤ p.stock → (∀ l ∈ cart, l.id = p.id → p.stock ≤ l.stock) →
      cartInvariant (addToCart cart p)) := by
  obtain ⟨hnd, hbound⟩ := hinv
  refine ⟨?_, ?_, ?_⟩
  · unfold cartInvariant removeFromCart
    constructor
    · exact List.Nodup.sublist (List.Sublist.map _ (List.filter_sublist cart)) hnd
    · intro l hl
      exact hbound l (List.mem_of_mem_filter hl)
  · intro hms
    unfold cartInvariant updateQuantity
    split
    · exact ⟨hnd, hbound⟩
    next hc =>
      have hq : 1 ≤ q ∧ q ≤ maxStock := by omega
      constructor
      · rw [map_ids_of_preserving]
        · exact hnd
        · intro l
          by_cases hb : (l.id == id) = true <;> simp [hb]
      · intro l hl
        obtain ⟨a, ha, rfl⟩ := List.mem_map.mp hl
        by_cases hb : (a.id == id) = true
        · have haid : a.id = id := by simpa using hb
          have hst : maxStock ≤ a.stock := hms a ha haid
          simp only [hb, if_true]
          exact ⟨hq.1, by simpa using le_trans hq.2 hst⟩
        · simp only [hb, if_false]
          exact hbound a ha
  · intro hp hstock
    cases hfind : cart.find? (fun item => item.id == p.id) with
    | none =>
      rw [addToCart_eq_of_none cart p hfind]
      unfold cartInvariant
      constructor
      · rw [List.map_append]
        refine List.Nodup.append hnd (by simp) ?_
        intro a ha hb
        obtain ⟨x, hx, rfl⟩ := List.mem_map.mp ha
        have hne : x.id ≠ p.id := by simpa using List.find?_eq_none.mp hfind x hx
        simp only [List.map_cons, List.map_nil, List.mem_singleton] at hb
        exact hne hb
      · intro l hl
        rcases List.mem_append.mp hl with h | h
        · exact hbound l h
        · have : l = newLine p := by simpa using h
          subst this
          exact ⟨le_refl 1, hp⟩
    | some existing =>
      have hex_mem := List.mem_of_find?_eq_some hfind
      have hex_id : existing.id = p.id := by simpa using List.find?_some hfind
      rw [addToCart_eq_of_some cart p existing hfind]
      split
      next hlt =>
        unfold cartInvariant
        constructor
        · rw [map_ids_of_preserving]
          · exact hnd
          · intro l
            by_cases hb : (l.id == p.id) = true <;> simp [hb]
        · intro l hl
          obtain ⟨a, ha, rfl⟩ := List.mem_map.mp hl
          by_cases hb : (a.id == p.id) = true
          · have haid : a.id = p.id := by simpa using hb
            have hae : a = existing :=
              List.inj_on_of_nodup_map hnd ha hex_mem (by
                show a.id = existing.id
                rw [haid, hex_id])
            have hq1 : 1 ≤ a.quantity := (hbound a ha).1
            have hq2 : a.quantity < p.stock := by rw [hae]; exact hlt
            have hst : p.stock ≤ a.stock := hstock a ha haid
            simp only [hb, if_true]
            exact ⟨by omega, by simpa using by omega⟩
          · simp only [hb, if_false]
            exact hbound a ha
      next hge =>
        exact ⟨hnd, hbound⟩

/-- Witness for C1: the invariant holds after adding an in-stock product to
the empty cart. -/
theorem cartInvariant_preserved_w :
    cartInvariant (addToCart [] (⟨1, "A", "c", 10, 2⟩ : Product)) :=
  ((cartInvariant_preserved [] ⟨1, "A", "c", 10, 2⟩ 0 0 0 (by decide)).2.2)
    (by decide) (by simp)

lemma setDedup_mem (l : List String) (c : String) : c ∈ setDedup l ↔ c ∈ l := by
  induction l using setDedup.induct with
  | case1 => simp [setDedup]
  | case2 x rest ih =>
    rw [setDedup]
    simp only [List.mem_cons, ih, List.mem_filter, bne_iff_ne, ne_eq]
    by_cases hcx : c = x
    · simp [hcx]
    · simp [hcx]

lemma setDedup_nodup (l : List String) : (setDedup l).Nodup := by
  induction l using setDedup.induct with
  | case1 => simp [setDedup]
  | case2 x rest ih =>
    rw [setDedup]
    refine List.Nodup.cons ?_ ih
    intro hx
    have hmem := (setDedup_mem _ x).mp hx
    have := (List.mem_filter.mp hmem).2
    simp at this

/-- Filtering preserves the relative order of occurrences: if the first
occurrence of `a` is before the first occurrence of `b` in the filtered list,
the same holds in the original list. -/
lemma indexOf_filter_lt (p : String → Bool) :
    ∀ (l : List String) (a b : String), a ∈ l.filter p → b ∈ l.filter p →
      (l.filter p).indexOf a < (l.filter p).indexOf b →
      l.indexOf a < l.indexOf b := by
  intro l
  induction l with
  | nil => intro a b ha; simp at ha
  | cons x xs ih =>
    intro a b ha hb hlt
    by_cases hx : p x = true
    · rw [List.filter_cons_of_pos hx] at ha hb hlt
      by_cases hax : a = x
      · subst hax
        have hba : b ≠ a := by
          intro e
          subst e
          rw [List.indexOf_cons_self] at hlt
          exact Nat.not_lt_zero _ hlt
        rw [List.indexOf_cons_self, List.indexOf_cons_ne _ (fun h => hba h.symm)]
        exact Nat.succ_pos _
      · by_cases hbx : b = x
        · subst hbx
          rw [List.indexOf_cons_self, List.indexOf_cons_ne _ (fun h => hax h.symm)] at hlt
          exact absurd hlt (Nat.not_lt_zero _)
        · rw [List.indexOf_cons_ne _ (fun h => hax h.symm),
            List.indexOf_cons_ne _ (fun h => hbx h.symm)] at hlt
          have ha' : a ∈ xs.filter p := by
            rcases List.mem_cons.mp ha with h | h
            · exact absurd h hax
            · exact h
          have hb' : b ∈ xs.filter p := by
            rcases List.mem_cons.mp hb with h | h
            · exact absurd h hbx
            · exact h
          rw [List.indexOf_cons_ne _ (fun h => hax h.symm),
            List.indexOf_cons_ne _ (fun h => hbx h.symm)]
          exact Nat.succ_lt_succ (ih a b ha' hb' (Nat.lt_of_succ_lt_succ hlt))
    · rw [List.filter_cons_of_neg (by simpa using hx)] at ha hb hlt
      have hax : a ≠ x := by
        intro e
        subst e
        exact hx (List.mem_filter.mp ha).2
      have hbx : b ≠ x := by
        intro e
        subst e
        exact hx (List.mem_filter.mp hb).2
      rw [List.indexOf_cons_ne _ (fun h => hax h.symm),
        List.indexOf_cons_ne _ (fun h => hbx h.symm)]
      exact Nat.succ_lt_succ (ih a b ha hb hlt)

lemma setDedup_pairwise (l : List String) :
    (setDedup l).Pairwise (fun a b => l.indexOf a < l.indexOf b) := by
  induction l using setDedup.induct with
  | case1 => simp [setDedup]
  | case2 x rest ih =>
    rw [setDedup]
    constructor
    · intro b hb
      have hbmem := (setDedup_mem _ b).mp hb
      have hbx : b ≠ x := by simpa using (List.mem_filter.mp hbmem).2
      rw [List.indexOf_cons_self, List.indexOf_cons_ne _ (fun h => hbx h.symm)]
      exact Nat.succ_pos _
    · refine List.Pairwise.imp_of_mem ?_ ih
      intro a b ha hb hlt
      have ha' := (setDedup_mem _ a).mp ha
      have hb' := (setDedup_mem _ b).mp hb
      have hax : a ≠ x := by simpa using (List.mem_filter.mp ha').2
      have hbx : b ≠ x := by simpa using (List.mem_filter.mp hb').2
      have h2 : rest.indexOf a < rest.indexOf b :=
        indexOf_filter_lt _ rest a b ha' hb' hlt
      rw [List.indexOf_cons_ne _ (fun h => hax h.symm),
        List.indexOf_cons_ne _ (fun h => hbx h.symm)]
      exact Nat.succ_lt_succ h2

/-- Claim C9: `categories` is the sentinel `"all"` followed by the distinct
category values of the products, each exactly once (`Nodup` plus the
membership equivalence), in order of first occurrence in the catalog (the
first-occurrence indices are strictly increasing along the tail). -/
theorem categories_spec (products : List Product) :
    ∃ t, categories products = "all" :: t ∧
      t.Nodup ∧
      (∀ c, c ∈ t ↔ c ∈ products.map (fun p => p.category)) ∧
      t.Pairwise (fun a b =>
        (products.map (fun p => p.category)).indexOf a <
          (products.map (fun p => p.category)).indexOf b) := by
  refine ⟨setDedup (products.map (fun p => p.category)), ?_, setDedup_nodup _,
    fun c => setDedup_mem _ c, setDedup_pairwise _⟩
  rfl

lemma sortCmp_le_trans (so : String) (a b c : Product)
    (hab : sortCmp so a b ≤ 0) (hbc : sortCmp so b c ≤ 0) : sortCmp so a c ≤ 0 := by
  unfold sortCmp at hab hbc ⊢
  by_cases h1 : (so == "low") = true
  · rw [if_pos h1] at hab hbc ⊢
    linarith
  · rw [if_neg h1] at hab hbc ⊢
    by_cases h2 : (so == "high") = true
    · rw [if_pos h2] at hab hbc ⊢
      linarith
    · rw [if_neg h2]

lemma sortCmp_le_total (so : String) (a b : Product) :
    sortCmp so a b ≤ 0 ∨ sortCmp so b a ≤ 0 := by
  unfold sortCmp
  by_cases h1 : (so == "low") = true
  · rw [if_pos h1, if_pos h1]
    rcases le_total a.price b.price with h | h
    · exact Or.inl (by linarith)
    · exact Or.inr (by linarith)
  · rw [if_neg h1, if_neg h1]
    by_cases h2 : (so == "high") = true
    · rw [if_pos h2, if_pos h2]
      rcases le_total a.price b.price with h | h
      · exact Or.inr (by linarith)
      · exact Or.inl (by linarith)
    · rw [if_neg h2, if_neg h2]
      exact Or.inl (le_refl 0)

lemma sortCmp_of_eq_price (so : String) (a b : Product) (h : a.price = b.price) :
    sortCmp so a b ≤ 0 := by
  unfold sortCmp
  by_cases h1 : (so == "low") = true
  · rw [if_pos h1, h]
    simp
  · rw [if_neg h1]
    by_cases h2 : (so == "high") = true
    · rw [if_pos h2, h]
      simp
    · rw [if_neg h2]

lemma sortLe_trans (so : String) : ∀ (x y z : Product),
    decide (sortCmp so x y ≤ 0) = true → decide (sortCmp so y z ≤ 0) = true →
    decide (sortCmp so x z ≤ 0) = true := by
  intro x y z hxy hyz
  exact decide_eq_true
    (sortCmp_le_trans so x y z (of_decide_eq_true hxy) (of_decide_eq_true hyz))

lemma sortLe_total (so : String) : ∀ (x y : Product),
    (decide (sortCmp so x y ≤ 0) || decide (sortCmp so y x ≤ 0)) = true := by
  intro x y
  rcases sortCmp_le_total so x y with h | h
  · simp [h]
  · simp [h]

/-- Claim C2: every product returned by `filteredProducts` comes from the
catalog, its lowercased title contains the lowercased search text as a
substring, its category equals the selected one unless that is `"all"`, and
the result is ordered by price ascending for `"low"` and descending for
`"high"`. -/
theorem filteredProducts_spec (C : List Product) (F : FilterState) :
    (∀ p ∈ filteredProducts C F, p ∈ C) ∧
    (∀ p ∈ filteredProducts C F,
      jsToLower F.search <:+: jsToLower p.title ∧
      (F.category ≠ "all" → p.category = F.category)) ∧
    (F.sortOrder = "low" →
      (filteredProducts C F).Pairwise (fun a b => a.price ≤ b.price)) ∧
    (F.sortOrder = "high" →
      (filteredProducts C F).Pairwise (fun a b => b.price ≤ a.price)) := by
  have hmem : ∀ p ∈ filteredProducts C F,
      p ∈ (C.filter (titleMatches F.search)).filter (categoryMatches F.category) := by
    intro p hp
    unfold filteredProducts filterOnly at hp
    exact List.mem_mergeSort.mp hp
  refine ⟨?_, ?_, ?_, ?_⟩
  · intro p hp
    exact List.mem_of_mem_filter (List.mem_of_mem_filter (hmem p hp))
  · intro p hp
    obtain ⟨hp1, hp2⟩ := List.mem_filter.mp (hmem p hp)
    obtain ⟨hp0, hp3⟩ := List.mem_filter.mp hp1
    constructor
    · have := of_decide_eq_true hp3
      exact this
    · intro hne
      have hb1 : (F.category == "all") = false := by simpa using hne
      rcases Bool.or_eq_true_iff.mp hp2 with h | h
      · rw [hb1] at h
        cases h
      · simpa using h
  · intro hso
    unfold filteredProducts
    rw [hso] at *
    refine List.Pairwise.imp ?_
      (List.sorted_mergeSort (sortLe_trans "low") (sortLe_total "low") (filterOnly C F))
    intro a b h
    have h2 : sortCmp "low" a b ≤ 0 := of_decide_eq_true h
    have hb : (("low" : String) == "low") = true := by decide
    unfold sortCmp at h2
    rw [if_pos hb] at h2
    linarith
  · intro hso
    unfold filteredProducts
    rw [hso] at *
    refine List.Pairwise.imp ?_
      (List.sorted_mergeSort (sortLe_trans "high") (sortLe_total "high") (filterOnly C F))
    intro a b h
    have h2 : sortCmp "high" a b ≤ 0 := of_decide_eq_true h
    have hb1 : ¬ ((("high" : String) == "low") = true) := by decide
    have hb2 : (("high" : String) == "high") = true := by decide
    unfold sortCmp at h2
    rw [if_neg hb1, if_pos hb2] at h2
    linarith

/-- Witness for C2: the two-product scenario of the spec, search `"red"`,
category `"all"`, sort `"low"` — the result is ordered by ascending price. -/
theorem filteredProducts_spec_w :
    (filteredProducts
        [⟨1, "Red Shirt", "clothing", 10, 2⟩, ⟨2, "Red Hat", "clothing", 5, 3⟩]
        ⟨"red", "all", "low"⟩).Pairwise (fun a b => a.price ≤ b.price) :=
  (filteredProducts_spec
    [⟨1, "Red Shirt", "clothing", 10, 2⟩, ⟨2, "Red Hat", "clothing", 5, 3⟩]
    ⟨"red", "all", "low"⟩).2.2.1 rfl

/-- Claim C8: with no sort order the result is exactly the filtered list,
which is a sublist of the catalog (so the original order is preserved), and
the sort is stable: two filtered products with equal price stay in their
filtered — hence catalog — relative order in the sorted output. -/
theorem filteredProducts_stable (C : List Product) (F : FilterState) :
    (F.sortOrder ≠ "low" → F.sortOrder ≠ "high" →
      filteredProducts C F = filterOnly C F) ∧
    (filterOnly C F).Sublist C ∧
    (∀ a b : Product, a.price = b.price → ([a, b]).Sublist (filterOnly C F) →
      ([a, b]).Sublist (filteredProducts C F)) := by
  refine ⟨?_, ?_, ?_⟩
  · intro h1 h2
    unfold filteredProducts
    apply List.mergeSort_of_sorted
    apply List.pairwise_of_forall
    intro x y
    have hb1 : (F.sortOrder == "low") = false := by simpa using h1
    have hb2 : (F.sortOrder == "high") = false := by simpa using h2
    have hz : sortCmp F.sortOrder x y = 0 := by
      unfold sortCmp
      rw [if_neg (by simp [hb1]), if_neg (by simp [hb2])]
    show decide (sortCmp F.sortOrder x y ≤ 0) = true
    rw [hz]
    decide
  · unfold filterOnly
    exact (List.filter_sublist _).trans (List.filter_sublist _)
  · intro a b hab hsub
    unfold filteredProducts
    exact List.pair_sublist_mergeSort (sortLe_trans F.sortOrder)
      (sortLe_total F.sortOrder)
      (decide_eq_true (sortCmp_of_eq_price F.sortOrder a b hab)) hsub

/-- Witness for C8: two equal-priced products that both pass the filters stay
in catalog order in the sorted result. -/
theorem filteredProducts_stable_w :
    ([(⟨1, "A", "c", 5, 1⟩ : Product), ⟨2, "B", "c", 5, 1⟩]).Sublist
      (filteredProducts [⟨1, "A", "c", 5, 1⟩, ⟨2, "B", "c", 5, 1⟩]
        ⟨"", "all", "low"⟩) := by
  apply (filteredProducts_stable [⟨1, "A", "c", 5, 1⟩, ⟨2, "B", "c", 5, 1⟩]
    ⟨"", "all", "low"⟩).2.2
  · rfl
  · have h : filterOnly [(⟨1, "A", "c", 5, 1⟩ : Product), ⟨2, "B", "c", 5, 1⟩]
        ⟨"", "all", "low"⟩ = [⟨1, "A", "c", 5, 1⟩, ⟨2, "B", "c", 5, 1⟩] := by
      decide
    rw [h]

end MiniShop
